import Mathlib

/-!
Verification of the mail2feed backend (Rust) against its natural-language
specification.  The relevant program fragments are shallowly embedded as
executable Lean definitions, translated from the source files under
`src/backend/src/`.  Modelling conventions:

* Rust `String` is Lean `String`; where the code indexes by UTF-8 bytes
  (`str::len`, slicing) we compute byte lengths from the characters
  (`utf8Len`), exactly mirroring Rust's UTF-8 encoding widths.
* A Rust panic (e.g. out-of-char-boundary slicing) is modelled as `none`
  of an `Option` result.
* `chrono::DateTime<Utc>` values are modelled as `Int` Unix timestamps;
  `to_rfc3339` is modelled by an injective rendering `dateToRfc3339`
  (only determinism and injectivity of the real rendering are used).
  Timestamps stored as RFC 3339 strings and compared lexicographically in
  the cleanup code are modelled as integer timestamps (for a fixed UTC
  offset, lexicographic order of RFC 3339 strings is chronological order).
* Database tables are lists of row structures; `diesel` filter/count
  queries become `List.filter` / `List.countP`; inserts append.
* `f64` arithmetic in the retry-backoff computation is modelled by exact
  rational arithmetic; the `as u64` cast is `Nat.floor` (negative values
  clamp to zero, as in Rust's float-to-int cast).
-/

namespace Mail2Feed

/-! ## UTF-8 byte accounting (Rust `str::len` and byte slicing) -/

/-- Number of bytes of the UTF-8 encoding of a character. -/
def utf8Len (c : Char) : Nat :=
  if c.toNat < 0x80 then 1
  else if c.toNat < 0x800 then 2
  else if c.toNat < 0x10000 then 3
  else 4

/-- Rust `String::len`: the length in bytes of the UTF-8 encoding. -/
def byteLen (s : String) : Nat :=
  s.data.foldr (fun c n => utf8Len c + n) 0

/-- The UTF-8 encoding of a character as a list of bytes. -/
def utf8Bytes (c : Char) : List Nat :=
  let n := c.toNat
  if n < 0x80 then [n]
  else if n < 0x800 then [0xC0 + n / 64, 0x80 + n % 64]
  else if n < 0x10000 then
    [0xE0 + n / 4096, 0x80 + (n / 64) % 64, 0x80 + n % 64]
  else
    [0xF0 + n / 262144, 0x80 + (n / 4096) % 64, 0x80 + (n / 64) % 64,
     0x80 + n % 64]

/-- Take the characters making up exactly the first `n` bytes of a string.
Returns `none` when byte index `n` falls strictly inside a character,
which is the case in which Rust's `&body[..n]` slicing panics. -/
def takeBytes : List Char → Nat → Option (List Char)
  | _, 0 => some []
  | [], _ + 1 => none
  | c :: rest, n + 1 =>
    if utf8Len c ≤ n + 1 then
      (takeBytes rest (n + 1 - utf8Len c)).map (fun l => c :: l)
    else none

/-! ## `imap/processor.rs`: `truncate_body` -/

/-- `EmailProcessor::truncate_body` (processor.rs lines 245-251):
`if body.len() <= max_length { body.to_string() } else
\x7b format!("{}...", &body[..max_length]) \x7d`.
The slice `&body[..max_length]` panics when `max_length` is not a char
boundary; the panic is modelled as `none`. -/
def truncate_body (body : String) (max_length : Nat) : Option String :=
  if byteLen body ≤ max_length then some body
  else
    match takeBytes body.data max_length with
    | some pre => some (String.mk pre ++ "...")
    | none => none

/-! ## `urlencoding::encode` (used for the mailto link) -/

/-- Characters the `urlencoding` crate leaves unencoded:
ASCII alphanumerics and `-` `.` `_` `~`. -/
def isUrlUnreserved (c : Char) : Bool :=
  (65 ≤ c.toNat && c.toNat ≤ 90) || (97 ≤ c.toNat && c.toNat ≤ 122) ||
  (48 ≤ c.toNat && c.toNat ≤ 57) ||
  c == '-' || c == '.' || c == '_' || c == '~'

/-- Upper-case hexadecimal digit. -/
def hexDigit (n : Nat) : Char :=
  if n < 10 then Char.ofNat (48 + n) else Char.ofNat (55 + n)

/-- Percent-encoding of one byte, `%XX` with upper-case hex. -/
def percentByte (b : Nat) : List Char :=
  ['%', hexDigit (b / 16), hexDigit (b % 16)]

/-- `urlencoding::encode`: unreserved characters pass through, every other
character is replaced by the percent-encoding of its UTF-8 bytes. -/
def urlencode (s : String) : String :=
  String.mk (s.data.foldr
    (fun c acc =>
      (if isUrlUnreserved c then [c]
       else (utf8Bytes c).foldr (fun b a => percentByte b ++ a) []) ++ acc)
    [])

/-! ## Timestamps -/

/-- Injective model of `chrono`'s `to_rfc3339` rendering of a UTC
timestamp (only determinism and injectivity of the rendering matter to
the claims). -/
def dateToRfc3339 (t : Int) : String :=
  "rfc3339:" ++ toString t

/-- Partial inverse of `dateToRfc3339`, modelling
`DateTime::parse_from_rfc3339`: strings not produced by the rendering
fail to parse. -/
def parseRfc3339 (s : String) : Option Int :=
  if s.startsWith "rfc3339:" then (s.drop 8).toInt? else none

/-! ## `db/models.rs`: row structures -/

/-- `db/models.rs` `Email` (client.rs lines 786-795).  `date` is a Unix
timestamp; `from_addr` and `to_addr` model the Rust fields `from` and
`to` (Lean keywords). -/
structure Email where
  uid : Nat
  message_id : String
  subject : String
  from_addr : String
  to_addr : String
  date : Int
  body : String
  is_seen : Bool
  deriving DecidableEq, Repr

/-- `db/models.rs` `EmailRule` (lines 110-124). -/
structure EmailRule where
  id : Option String
  name : String
  imap_account_id : String
  folder : String
  to_address : Option String
  from_address : Option String
  subject_contains : Option String
  label : Option String
  is_active : Bool
  created_at : String
  updated_at : String
  post_process_action : String
  move_to_folder : Option String
  deriving DecidableEq, Repr

/-- `db/models.rs` `Feed` (lines 230-243).  The `i32` retention fields are
modelled as `Nat` (the code casts them with `as usize` / `as i64` and all
call sites use non-negative values). -/
structure Feed where
  id : Option String
  title : String
  description : Option String
  link : Option String
  email_rule_id : String
  feed_type : String
  is_active : Bool
  created_at : String
  updated_at : String
  max_items : Option Nat
  max_age_days : Option Nat
  min_items : Option Nat
  deriving DecidableEq, Repr

/-- `db/models.rs` `FeedItem` (lines 319-335), one row of `feed_items`.
`created_at` keeps its stored string form; `body_size` is the byte count
of `email_body`. -/
structure FeedItem where
  id : Option String
  feed_id : String
  title : String
  description : Option String
  link : Option String
  author : Option String
  pub_date : String
  email_message_id : Option String
  email_subject : Option String
  email_from : Option String
  email_body : Option String
  created_at : String
  is_read : Option Bool
  starred : Option Bool
  body_size : Option Nat
  deriving DecidableEq, Repr

/-- `db/models.rs` `NewFeedItem` (lines 339-355) without the generated
UUID `id` (no claim depends on the random identifier). -/
structure NewFeedItem where
  feed_id : String
  title : String
  description : Option String
  link : Option String
  author : Option String
  pub_date : String
  email_message_id : Option String
  email_subject : Option String
  email_from : Option String
  email_body : Option String
  created_at : String
  is_read : Option Bool
  starred : Option Bool
  body_size : Option Nat
  deriving DecidableEq, Repr

/-- `NewFeedItem::new` (models.rs lines 357-389): `body_size` is
`email_body.as_ref().map(|body| body.len()).unwrap_or(0)`, `pub_date` is
the RFC 3339 rendering of the date, `is_read`/`starred` start false.
`created_at = Utc::now()` is passed in as `now`. -/
def NewFeedItem.new (feed_id title : String) (description link author :
    Option String) (pub_date : Int) (email_message_id email_subject
    email_from email_body : Option String) (now : Int) : NewFeedItem :=
  { feed_id := feed_id
    title := title
    description := description
    link := link
    author := author
    pub_date := dateToRfc3339 pub_date
    email_message_id := email_message_id
    email_subject := email_subject
    email_from := email_from
    email_body := email_body
    created_at := dateToRfc3339 now
    is_read := some false
    starred := some false
    body_size := some ((email_body.map byteLen).getD 0) }

/-- The `feed_items` row obtained by inserting a `NewFeedItem`
(`FeedItemOps::create` inserts the values and re-reads the row; the
generated UUID id is not modelled). -/
def NewFeedItem.toStored (n : NewFeedItem) : FeedItem :=
  { id := none
    feed_id := n.feed_id
    title := n.title
    description := n.description
    link := n.link
    author := n.author
    pub_date := n.pub_date
    email_message_id := n.email_message_id
    email_subject := n.email_subject
    email_from := n.email_from
    email_body := n.email_body
    created_at := n.created_at
    is_read := n.is_read
    starred := n.starred
    body_size := n.body_size }

/-! ## `imap/processor.rs`: rule matching, duplicate detection,
feed-item creation and the per-rule processing loop.

The `feed_items` table (for one account's database) is modelled as a
`List FeedItem`; diesel `filter ... count` queries become `List.countP`
and inserts append at the end. -/

/-- `EmailProcessor::matches_rule` (processor.rs lines 148-188): every
present pattern must match as a case-insensitive substring (checked in
source order from, to, subject); absent patterns impose nothing. -/
def matches_rule (email : Email) (rule : EmailRule) : Bool :=
  (match rule.from_address with
   | some p => decide (p.toLower.data <:+: email.from_addr.toLower.data)
   | none => true) &&
  (match rule.to_address with
   | some p => decide (p.toLower.data <:+: email.to_addr.toLower.data)
   | none => true) &&
  (match rule.subject_contains with
   | some p => decide (p.toLower.data <:+: email.subject.toLower.data)
   | none => true)

/-- The tier-1 duplicate query of `email_exists_in_feed` (processor.rs
lines 197-209): rows of the feed with `email_message_id` equal to the
message's Message-ID. -/
def countByMessageId (store : List FeedItem) (feed_id_val : String)
    (email : Email) : Nat :=
  store.countP (fun it =>
    it.feed_id == feed_id_val &&
    it.email_message_id == some email.message_id)

/-- The tier-2 duplicate query of `email_exists_in_feed` (processor.rs
lines 211-225): rows of the feed matching on
(title = subject) ∧ (email_from = from) ∧ (pub_date = RFC 3339 date). -/
def countBySubjectFromDate (store : List FeedItem) (feed_id_val : String)
    (email : Email) : Nat :=
  store.countP (fun it =>
    it.feed_id == feed_id_val &&
    it.title == email.subject &&
    it.email_from == some email.from_addr &&
    it.pub_date == dateToRfc3339 email.date)

/-- `EmailProcessor::email_exists_in_feed` (processor.rs lines 190-226):
if the Message-ID is non-empty and the tier-1 count is positive the
message is a duplicate; otherwise (also when the non-empty Message-ID
found no match) the decision falls to the tier-2 composite count. -/
def email_exists_in_feed (store : List FeedItem) (feed_id_val : String)
    (email : Email) : Bool :=
  if email.message_id ≠ "" && countByMessageId store feed_id_val email > 0
  then true
  else countBySubjectFromDate store feed_id_val email > 0

/-- `EmailProcessor::create_feed_item` (processor.rs lines 228-243):
builds the `NewFeedItem` for a matched, non-duplicate email.  The
truncation of the body can panic (`none`).  `now` stands for the
`Utc::now()` read inside `NewFeedItem::new`. -/
def create_feed_item (email : Email) (feed_id_val : String) (now : Int) :
    Option NewFeedItem :=
  (truncate_body email.body 500).map (fun desc =>
    NewFeedItem.new feed_id_val email.subject (some desc)
      (some ("mailto:" ++ email.from_addr ++ "?subject=" ++
        urlencode email.subject))
      (some email.from_addr) email.date (some email.message_id)
      (some email.subject) (some email.from_addr) (some email.body) now)

/-- The message loop of `EmailProcessor::process_rule` (processor.rs
lines 93-131) over the fetched emails: a matching, non-duplicate email is
materialized and inserted; duplicates and non-matches are skipped.  The
result is the updated `feed_items` table together with `items_created`.
A panic inside `create_feed_item` aborts the run (`none`); post-actions
touch only the mailbox, not the store, and are not modelled. -/
def processEmails (rule : EmailRule) (feed_id_val : String) (now : Int) :
    List Email → List FeedItem → Option (List FeedItem × Nat)
  | [], store => some (store, 0)
  | email :: rest, store =>
    if matches_rule email rule then
      if email_exists_in_feed store feed_id_val email then
        processEmails rule feed_id_val now rest store
      else
        match create_feed_item email feed_id_val now with
        | none => none
        | some n =>
          (processEmails rule feed_id_val now rest
            (store ++ [n.toStored])).map (fun r => (r.1, r.2 + 1))
    else processEmails rule feed_id_val now rest store

/-- `EmailProcessor::process_rule` (processor.rs lines 62-146): with no
feed bound to the rule the run is a no-op; otherwise only the first feed
returned by `get_feeds_by_rule` receives items.  A feed without an id is
a run-level error (`none`). -/
def process_rule (rule : EmailRule) (feeds : List Feed) (now : Int)
    (emails : List Email) (store : List FeedItem) :
    Option (List FeedItem × Nat) :=
  match feeds with
  | [] => some (store, 0)
  | feed :: _ =>
    match feed.id with
    | none => none
    | some feed_id_val => processEmails rule feed_id_val now emails store

/-! ## `imap/crlf_wrapper.rs`: write-path CRLF normalization -/

/-- The scan of `CrlfStreamWrapper::process_outgoing_data` (crlf_wrapper.rs
lines 50-64) in recursive form: `prev` is the byte at position `i - 1` of
the ORIGINAL data (`none` at position 0).  A CR (13) is inserted before
every LF (10) whose original predecessor is not CR. -/
def crlfScan : Option Nat → List Nat → List Nat
  | _, [] => []
  | prev, b :: rest =>
    if b = 10 && prev ≠ some 13 then 13 :: b :: crlfScan (some b) rest
    else b :: crlfScan (some b) rest

/-- `CrlfStreamWrapper::process_outgoing_data` (crlf_wrapper.rs lines
41-68): passthrough when processing is disabled, otherwise the CRLF
insertion scan over the bytes. -/
def process_outgoing_data (enable_crlf_processing : Bool)
    (data : List Nat) : List Nat :=
  if !enable_crlf_processing then data
  else crlfScan none data

/-- `prev`-aware reading of "every LF byte is preceded by a CR byte":
`crlfOkFrom prev data` holds when every LF of `data` is preceded by CR,
counting `prev` as the byte before the first one. -/
def crlfOkFrom : Option Nat → List Nat → Bool
  | _, [] => true
  | prev, b :: rest =>
    (b ≠ 10 || prev = some 13) && crlfOkFrom (some b) rest

/-- Every LF byte of the sequence is preceded by a CR byte (an LF at
position 0 has no predecessor and violates the property). -/
def crlfOk (data : List Nat) : Bool :=
  crlfOkFrom none data

/-! ## `background/cleanup.rs`: the retention compactor

`FeedCleanupService::cleanup_feed` only consults each item's `id` and
`created_at`; to keep the time comparisons decidable the stored RFC 3339
`created_at` strings are modelled directly as integer timestamps (one
fixed UTC offset makes lexicographic string order coincide with
chronological order, so both the parse-and-compare of the age filter and
the string sort of the count filter are the integer comparison). -/

/-- A `feed_items` row as seen by the compactor: its `id` column (nullable)
and its `created_at` timestamp. -/
structure CleanupItem where
  id : Option String
  created_at : Int
  deriving DecidableEq, Repr

/-- Age-filter pass (cleanup.rs lines 72-86): walk the loaded items in
order and collect the ids of those with `created_at < cutoff`.  Items
with a null id are skipped, as in the source. -/
def ageMarks (cutoff : Int) : List CleanupItem → List String
  | [] => []
  | it :: rest =>
    if it.created_at < cutoff then
      match it.id with
      | some i => i :: ageMarks cutoff rest
      | none => ageMarks cutoff rest
    else ageMarks cutoff rest

/-- Stable insertion into a list sorted ascending by `created_at`
(model of Rust's stable `sort_by(|a, b| a.created_at.cmp(&b.created_at))`). -/
def insertByCreatedAt (x : CleanupItem) : List CleanupItem → List CleanupItem
  | [] => [x]
  | y :: ys =>
    if x.created_at ≤ y.created_at then x :: y :: ys
    else y :: insertByCreatedAt x ys

/-- Stable sort ascending by `created_at`. -/
def sortByCreatedAt : List CleanupItem → List CleanupItem
  | [] => []
  | x :: xs => insertByCreatedAt x (sortByCreatedAt xs)

/-- The push loop of the count-filter pass (cleanup.rs lines 103-110):
append the ids of the given items to the accumulated mark list, skipping
null ids and ids already marked. -/
def pushCountMarks (marks : List String) : List CleanupItem → List String
  | [] => marks
  | it :: rest =>
    match it.id with
    | some i =>
      if marks.contains i then pushCountMarks marks rest
      else pushCountMarks (marks ++ [i]) rest
    | none => pushCountMarks marks rest

/-- Count-filter pass (cleanup.rs lines 88-112): when `max_items` is set
and exceeded, mark the oldest `len - max(max_items, min_items)` items
(oldest by the ascending `created_at` sort), deduplicating against the
age marks. -/
def countMarks (feed : Feed) (all_items : List CleanupItem)
    (marks : List String) : List String :=
  match feed.max_items with
  | none => marks
  | some max_items =>
    let min_items := feed.min_items.getD 0
    if all_items.length > max_items then
      let target_count := max max_items min_items
      let items_to_remove_by_count := all_items.length - target_count
      let sorted_items := sortByCreatedAt all_items
      pushCountMarks marks (sorted_items.take items_to_remove_by_count)
    else marks

/-- Floor-guarantee pass (cleanup.rs lines 114-124): when the removals
would leave fewer than `min_items` items, truncate the mark list (keeping
its first entries) so that exactly `min_items` survive. -/
def floorMarks (feed : Feed) (len : Nat) (marks : List String) :
    List String :=
  match feed.min_items with
  | none => marks
  | some min_items =>
    let items_after_removal := len - marks.length
    if items_after_removal < min_items then
      marks.take (marks.length - (min_items - items_after_removal))
    else marks

/-- The full mark list of one `cleanup_feed` run: age pass, then count
pass, then the `min_items` floor. -/
def cleanupMarks (feed : Feed) (now : Int) (all_items : List CleanupItem) :
    List String :=
  match feed.max_age_days with
  | some max_age_days =>
    floorMarks feed all_items.length
      (countMarks feed all_items
        (ageMarks (now - max_age_days * 86400) all_items))
  | none =>
    floorMarks feed all_items.length (countMarks feed all_items [])

/-- Whether the removal loop's `FeedItemOps::delete` statements delete a
given row: its id is non-null and appears in the mark list. -/
def removedByMarks (marks : List String) (it : CleanupItem) : Bool :=
  match it.id with
  | some i => marks.contains i
  | none => false

/-- `FeedCleanupService::cleanup_feed` (cleanup.rs lines 50-145) as a
function from the loaded item list (ordered as `get_by_feed_id` returns
it: `pub_date` descending) to the remaining items and the removed count.
Deleting by id removes the rows whose id equals a marked id; every
delete statement reports success, so `items_removed` is the length of
the mark list. -/
def cleanup_feed (feed : Feed) (now : Int) (all_items : List CleanupItem) :
    List CleanupItem × Nat :=
  if all_items.isEmpty then (all_items, 0)
  else
    let marks := cleanupMarks feed now all_items
    (all_items.filter (fun it => !removedByMarks marks it), marks.length)

/-! ## `background/config.rs` and `background/scheduler.rs`:
retry backoff and the failure branch of the per-account state update.

Durations are in whole seconds.  The `f64` backoff computation is
modelled by exact rational arithmetic; the final `as u64` cast is
`Nat.floor` (a negative float casts to 0, as does `Nat.floor` on a
negative rational). -/

/-- `RetryConfig` (config.rs lines 30-42). -/
structure RetryConfig where
  max_attempts : Nat
  initial_delay_seconds : Nat
  max_delay_seconds : Nat
  backoff_multiplier : ℚ
  deriving DecidableEq, Repr

/-- The fields of `BackgroundConfig` (config.rs lines 8-26) consumed by
the scheduler's failure branch. -/
structure BackgroundConfig where
  global_interval_minutes : Nat
  per_account_interval_minutes : Nat
  max_concurrent_accounts : Nat
  enabled : Bool
  retry : RetryConfig
  deriving DecidableEq, Repr

/-- `BackgroundConfig::per_account_interval` (config.rs lines 160-162),
in seconds. -/
def perAccountInterval (cfg : BackgroundConfig) : Nat :=
  cfg.per_account_interval_minutes * 60

/-- `BackgroundConfig::calculate_retry_delay` (config.rs lines 182-188):
`initial_delay_seconds · backoff_multiplier ^ attempt`, capped at
`max_delay_seconds`, truncated to whole seconds. -/
def calculate_retry_delay (cfg : BackgroundConfig) (attempt : Nat) : Nat :=
  let delay_seconds : ℚ :=
    (cfg.retry.initial_delay_seconds : ℚ) *
      cfg.retry.backoff_multiplier ^ attempt
  Nat.floor (min delay_seconds (cfg.retry.max_delay_seconds : ℚ))

/-- The per-account scheduler state fields touched by the failure branch
(scheduler.rs lines 386-392): `next_allowed_run` is an absolute time in
seconds. -/
structure AccountState where
  consecutive_failures : Nat
  retry_count : Nat
  next_allowed_run : Nat
  deriving DecidableEq, Repr

/-- The failure branch of the state update in `process_due_accounts`
(scheduler.rs lines 343-357): increment `retry_count`; while it is within
`max_attempts` back off by `calculate_retry_delay (retry_count - 1)`,
otherwise reset `retry_count` and wait a full `per_account_interval`. -/
def onProcessingFailure (cfg : BackgroundConfig) (st : AccountState)
    (now : Nat) : AccountState :=
  let retry_count := st.retry_count + 1
  if retry_count ≤ cfg.retry.max_attempts then
    { consecutive_failures := st.consecutive_failures + 1
      retry_count := retry_count
      next_allowed_run := now + calculate_retry_delay cfg (retry_count - 1) }
  else
    { consecutive_failures := st.consecutive_failures + 1
      retry_count := 0
      next_allowed_run := now + perAccountInterval cfg }

/-! ## `feed/generator.rs`: RSS and Atom rendering

The XML serialization of the `rss` and `atom_syndication` crates is
modelled by direct string concatenation of the same fields in document
order (entity-escaping is not modelled; it does not affect which inputs
reach the output).  Both renderers receive the ambient clock `now` as an
explicit argument standing for `Utc::now()`; `generate_rss` never reads
it, `generate_atom` does (generator.rs lines 48 and 68-72). -/

/-- `format!("{}", id)` on the nullable id columns. -/
def optIdStr (id : Option String) : String :=
  id.getD ""

/-- Rendering of one RSS `<item>` (generator.rs lines 19-36). -/
def rssItemXml (feed : Feed) (item : FeedItem) : String :=
  "<item><title>" ++ item.title ++ "</title><description>" ++
  (item.description.getD "") ++ "</description><link>" ++
  (item.link.getD "") ++ "</link><author>" ++ (item.author.getD "") ++
  "</author><pubDate>" ++ item.pub_date ++
  "</pubDate><guid isPermaLink=\"false\">" ++ optIdStr feed.id ++ "_" ++
  optIdStr item.id ++ "</guid></item>"

/-- `FeedGenerator::generate_rss` (generator.rs lines 10-41).  The value
of the ambient clock `now` is never consulted. -/
def generate_rss (feed : Feed) (items : List FeedItem) (_now : Int) :
    String :=
  "<rss version=\"2.0\"><channel><title>" ++ feed.title ++
  "</title><description>" ++ (feed.description.getD "Mail2Feed RSS") ++
  "</description><link>" ++ (feed.link.getD "#") ++ "</link>" ++
  String.join (items.map (rssItemXml feed)) ++ "</channel></rss>"

/-- Rendering of one Atom `<entry>` (generator.rs lines 56-95): when the
stored `pub_date` parses, `published` keeps it and `updated` is its UTC
normalization; when it does not parse, both fall back to `now`. -/
def atomEntryXml (now : Int) (item : FeedItem) : String :=
  "<entry><id>urn:uuid:" ++ optIdStr item.id ++ "</id><title>" ++
  item.title ++ "</title>" ++
  (match parseRfc3339 item.pub_date with
   | some t =>
     "<published>" ++ dateToRfc3339 t ++ "</published><updated>" ++
     dateToRfc3339 t ++ "</updated>"
   | none =>
     "<published>" ++ dateToRfc3339 now ++ "</published><updated>" ++
     dateToRfc3339 now ++ "</updated>") ++
  (match item.description with
   | some d => "<content type=\"html\">" ++ d ++ "</content>"
   | none => "") ++
  (match item.author with
   | some a => "<author><name>" ++ a ++ "</name></author>"
   | none => "") ++
  "</entry>"

/-- `FeedGenerator::generate_atom` (generator.rs lines 43-101).  The
feed-level `<updated>` element is `Utc::now()` (line 48), i.e. the clock
at the time of the call. -/
def generate_atom (feed : Feed) (items : List FeedItem) (now : Int) :
    String :=
  "<feed xmlns=\"http://www.w3.org/2005/Atom\"><title>" ++ feed.title ++
  "</title><id>urn:uuid:" ++ optIdStr feed.id ++ "</id><updated>" ++
  dateToRfc3339 now ++ "</updated>" ++
  (match feed.description with
   | some d => "<subtitle>" ++ d ++ "</subtitle>"
   | none => "") ++
  String.join (items.map (atomEntryXml now)) ++ "</feed>"

/-! ## Concrete sample data for counterexamples and witnesses -/

/-- A stored feed item whose composite key (title, from, date) will
collide with `c1Email` while its Message-ID differs. -/
def c1StoredItem : FeedItem :=
  { id := some "item-1"
    feed_id := "feed-1"
    title := "Weekly digest"
    description := some "older copy"
    link := none
    author := some "alice@example.com"
    pub_date := dateToRfc3339 1000
    email_message_id := some "old-id@example.com"
    email_subject := some "Weekly digest"
    email_from := some "alice@example.com"
    email_body := some "older copy"
    created_at := dateToRfc3339 1000
    is_read := some false
    starred := some false
    body_size := some 10 }

/-- The `feed_items` table holding only `c1StoredItem`. -/
def c1Store : List FeedItem := [c1StoredItem]

/-- A message with a fresh, non-empty Message-ID but the same subject,
sender and date as `c1StoredItem`. -/
def c1Email : Email :=
  { uid := 7
    message_id := "new-id@example.com"
    subject := "Weekly digest"
    from_addr := "alice@example.com"
    to_addr := "list@example.com"
    date := 1000
    body := "fresh copy"
    is_seen := false }

/-- Feed with the retention triple of scenario S4:
`max_items = 2`, `max_age_days = 1`, `min_items = 1`. -/
def c2Feed : Feed :=
  { id := some "feed-2"
    title := "Retention test"
    description := none
    link := none
    email_rule_id := "rule-2"
    feed_type := "rss"
    is_active := true
    created_at := dateToRfc3339 0
    updated_at := dateToRfc3339 0
    max_items := some 2
    max_age_days := some 1
    min_items := some 1 }

/-- One compactor item with the given index as id and `created_at`. -/
def mkCleanupItem (n : Nat) : CleanupItem :=
  { id := some ("item-" ++ toString n), created_at := (n : Int) }

/-- Five items with `created_at` t1 < t2 < t3 < t4 < t5, loaded in the
order `get_by_feed_id` returns them (`pub_date` descending, which here
agrees with `created_at` descending). -/
def c2Items : List CleanupItem :=
  [mkCleanupItem 5, mkCleanupItem 4, mkCleanupItem 3,
   mkCleanupItem 2, mkCleanupItem 1]

/-- A clock two days after the newest item: every item is older than the
`max_age_days = 1` cutoff. -/
def c2Now : Int := 2 * 86400 + 10

/-- A rule with no predicates (matches every message in its folder). -/
def c4Rule : EmailRule :=
  { id := some "rule-4"
    name := "catch-all"
    imap_account_id := "acct-1"
    folder := "INBOX"
    to_address := none
    from_address := none
    subject_contains := none
    label := none
    is_active := true
    created_at := dateToRfc3339 0
    updated_at := dateToRfc3339 0
    post_process_action := "mark_read"
    move_to_folder := none }

/-- A plain ASCII message. -/
def c4Email : Email :=
  { uid := 1
    message_id := "m1@x"
    subject := "TLDR AI"
    from_addr := "dan@tldrnewsletter.com"
    to_addr := "me@example.com"
    date := 500
    body := "hello"
    is_seen := false }

/-- The feed bound to `c4Rule` together with a second feed bound to the
same rule (for the frame claim). -/
def c4Feed : Feed :=
  { id := some "feed-4"
    title := "TLDR"
    description := none
    link := none
    email_rule_id := "rule-4"
    feed_type := "rss"
    is_active := true
    created_at := dateToRfc3339 0
    updated_at := dateToRfc3339 0
    max_items := some 100
    max_age_days := some 30
    min_items := some 10 }

/-- A second feed bound to the same rule. -/
def c10OtherFeed : Feed :=
  { c4Feed with id := some "feed-10", title := "TLDR copy" }

/-- A pre-existing item of the second feed. -/
def c10OtherItem : FeedItem :=
  { c1StoredItem with id := some "item-10", feed_id := "feed-10" }

/-- Body of 251 copies of a two-byte character: 251 characters but 502
UTF-8 bytes. -/
def c5Body : String :=
  String.mk (List.replicate 251 'é')

/-- The message carrying `c5Body`. -/
def c5Email : Email :=
  { c4Email with body := c5Body }

/-- Body of 499 ASCII bytes followed by one two-byte character: byte 500
falls strictly inside the final character. -/
def c9Body : String :=
  String.mk (List.replicate 499 'a' ++ ['é'])

/-- The message carrying `c9Body`. -/
def c9Email : Email :=
  { c4Email with body := c9Body }

/-- `BackgroundConfig::default` / `RetryConfig::default` (config.rs lines
57-79): 15 min global tick, 30 min per-account interval, 3 retry
attempts, 30 s initial delay, 300 s cap, multiplier 2. -/
def defaultConfig : BackgroundConfig :=
  { global_interval_minutes := 15
    per_account_interval_minutes := 30
    max_concurrent_accounts := 3
    enabled := true
    retry :=
      { max_attempts := 3
        initial_delay_seconds := 30
        max_delay_seconds := 300
        backoff_multiplier := 2 } }

/-- A fresh account state (`initialize_account_states`,
scheduler.rs lines 386-392). -/
def freshState : AccountState :=
  { consecutive_failures := 0, retry_count := 0, next_allowed_run := 0 }

/-- An account state whose next failure exceeds `max_attempts = 3`. -/
def exhaustedState : AccountState :=
  { consecutive_failures := 3, retry_count := 3, next_allowed_run := 0 }

/-- The feed item materialized from `c4Email` (body "hello", 5 bytes,
untouched by truncation). -/
def c5WitnessItem : NewFeedItem :=
  NewFeedItem.new "feed-4" c4Email.subject (some "hello")
    (some ("mailto:" ++ c4Email.from_addr ++ "?subject=" ++
      urlencode c4Email.subject))
    (some c4Email.from_addr) c4Email.date (some c4Email.message_id)
    (some c4Email.subject) (some c4Email.from_addr) (some c4Email.body) 7

/-- The `feed_items` table after materializing `c4Email` into feed
"feed-4" on top of the pre-existing item of feed "feed-10". -/
def c10Store1 : List FeedItem :=
  [c10OtherItem, c5WitnessItem.toStored]

/-! ## Theorems -/

/-- On data whose LFs are all already preceded by CRs (relative to the
incoming `prev` byte), the CRLF scan is the identity. -/
theorem crlfScan_eq_self (data : List Nat) :
    ∀ p, crlfOkFrom p data = true → crlfScan p data = data := by
  induction data with
  | nil => intro p _; rfl
  | cons b rest ih =>
    intro p h
    unfold crlfOkFrom at h
    rw [Bool.and_eq_true] at h
    unfold crlfScan
    have hcond : (decide (b = 10) && decide (p ≠ some 13)) = false := by
      have h1 := h.1
      by_cases hb : b = 10 <;> by_cases hp : p = some 13 <;>
        simp [hb, hp] at h1 ⊢
    rw [hcond]
    simp [ih (some b) h.2]

/-- The output of the CRLF scan has every LF preceded by a CR, relative
to the same incoming `prev` byte. -/
theorem crlfOkFrom_crlfScan (data : List Nat) :
    ∀ p, crlfOkFrom p (crlfScan p data) = true := by
  induction data with
  | nil => intro p; rfl
  | cons b rest ih =>
    intro p
    unfold crlfScan
    by_cases hcond : (decide (b = 10) && decide (p ≠ some 13)) = true
    · rw [Bool.and_eq_true, decide_eq_true_iff, decide_eq_true_iff] at hcond
      rw [if_pos]
      · unfold crlfOkFrom
        unfold crlfOkFrom
        rw [hcond.1]
        simpa using ih (some 10)
      · rw [Bool.and_eq_true, decide_eq_true_iff, decide_eq_true_iff]
        exact hcond
    · rw [if_neg hcond]
      unfold crlfOkFrom
      rw [Bool.and_eq_true]
      refine ⟨?_, ih (some b)⟩
      rw [Bool.and_eq_true, decide_eq_true_iff, decide_eq_true_iff] at hcond
      by_cases hb : b = 10 <;> by_cases hp : p = some 13 <;>
        simp [hb, hp] at hcond ⊢

/-- C8: the CRLF write-path normalization is idempotent: on byte
sequences in which every LF is already preceded by a CR,
`process_outgoing_data` is the identity, and applying it twice to any
input equals applying it once. -/
theorem c8_process_outgoing_data_idempotent (data : List Nat) :
    (crlfOk data = true → process_outgoing_data true data = data) ∧
    process_outgoing_data true (process_outgoing_data true data) =
      process_outgoing_data true data := by
  unfold process_outgoing_data crlfOk
  simp only [Bool.not_true, Bool.false_eq_true, if_false]
  exact ⟨crlfScan_eq_self data none,
    crlfScan_eq_self (crlfScan none data) none
      (crlfOkFrom_crlfScan data none)⟩

/-- Witness for C8 at the concrete CRLF-terminated input `[13, 10]`. -/
theorem c8_witness :
    crlfOk [13, 10] = true ∧
    process_outgoing_data true [13, 10] = [13, 10] :=
  ⟨by decide, (c8_process_outgoing_data_idempotent [13, 10]).1 (by decide)⟩

/-- C1, counterexample: a message with a non-empty Message-ID that
matches no stored item is nonetheless declared a duplicate, because the
code falls through to the composite subject/from/date test — so the
duplicate decision is not made by the Message-ID match alone. -/
theorem c1_counterexample :
    c1Email.message_id ≠ "" ∧
    countByMessageId c1Store "feed-1" c1Email = 0 ∧
    email_exists_in_feed c1Store "feed-1" c1Email = true := by
  refine ⟨by decide, by decide, by decide⟩

/-- C1, amended: a non-empty Message-ID match alone suffices for a
duplicate verdict, but the composite subject/from/date test is consulted
both when the Message-ID is empty and when a non-empty Message-ID finds
no match; the verdict is the disjunction of the two tests. -/
theorem c1_email_exists_two_tier (store : List FeedItem) (fid : String)
    (e : Email) :
    email_exists_in_feed store fid e =
      ((e.message_id ≠ "" && countByMessageId store fid e > 0) ||
        countBySubjectFromDate store fid e > 0) := by
  unfold email_exists_in_feed
  by_cases h :
      (decide (e.message_id ≠ "") &&
        decide (countByMessageId store fid e > 0)) = true
  · simp [h]
  · simp only [Bool.not_eq_true] at h
    simp [h]

/-- C2, counterexample: for the S4 feed (`max_items = 2`, `min_items = 1`,
`max_age_days = 1`) with five items all older than one day, one
`cleanup_feed` run does not leave two items. -/
theorem c2_counterexample :
    (cleanup_feed c2Feed c2Now c2Items).1.length ≠ 2 := by decide

/-- C2, amended: that run leaves exactly one item (the `min_items` floor
truncates the mark list so that exactly `min_items = 1` survive), and the
survivor is the oldest item t1, because the marks are accumulated in
loaded order (newest first) and truncation drops the trailing marks. -/
theorem c2_cleanup_keeps_min_items_oldest :
    (cleanup_feed c2Feed c2Now c2Items).1 = [mkCleanupItem 1] := by decide

/-- C7, counterexample: `generate_atom` is not a pure function of the
(Feed, items) pair — the same feed and item list rendered at two
different times yield different XML, because the feed-level `<updated>`
element is the clock at call time. -/
theorem c7_counterexample :
    generate_atom c4Feed [] 0 ≠ generate_atom c4Feed [] 1 := by decide

/-- C7, amended: `generate_rss` is a pure function of (Feed, items): its
output is independent of the time of the call.  (`generate_atom` is not;
see the counterexample.) -/
theorem c7_generate_rss_pure (feed : Feed) (items : List FeedItem)
    (t1 t2 : Int) :
    generate_rss feed items t1 = generate_rss feed items t2 := rfl

set_option maxRecDepth 8192 in
/-- C9: `truncate_body` is not total — on a body of 499 one-byte
characters followed by one two-byte character, byte index 500 falls
inside the final character and the slice `&body[..500]` panics
(modelled as `none`). -/
theorem c9_truncate_body_panics : truncate_body c9Body 500 = none := by
  decide

/-- The computed retry delay never exceeds `max_delay_seconds`. -/
theorem calculate_retry_delay_le (cfg : BackgroundConfig) (k : Nat) :
    calculate_retry_delay cfg k ≤ cfg.retry.max_delay_seconds := by
  unfold calculate_retry_delay
  calc Nat.floor (min ((cfg.retry.initial_delay_seconds : ℚ) *
        cfg.retry.backoff_multiplier ^ k)
        (cfg.retry.max_delay_seconds : ℚ)) ≤
      Nat.floor ((cfg.retry.max_delay_seconds : ℚ)) :=
        Nat.floor_le_floor (min_le_right _ _)
    _ = cfg.retry.max_delay_seconds := Nat.floor_natCast _

/-- C6: on a processing failure the scheduler increments `retry_count`;
while the incremented count is within `max_attempts`, the next run is
delayed by `backoff(retry_count - 1) = min(initialDelay · multiplier ^
(retry_count - 1), maxDelay)` — never more than `maxDelay`; once it
exceeds `max_attempts`, `retry_count` resets to 0 and the next run is a
full `per_account_interval` away. -/
theorem c6_failure_retry_backoff (cfg : BackgroundConfig)
    (st : AccountState) (now : Nat) :
    (st.retry_count + 1 ≤ cfg.retry.max_attempts →
      (onProcessingFailure cfg st now).retry_count = st.retry_count + 1 ∧
      (onProcessingFailure cfg st now).next_allowed_run =
        now + Nat.floor (min ((cfg.retry.initial_delay_seconds : ℚ) *
          cfg.retry.backoff_multiplier ^ st.retry_count)
          (cfg.retry.max_delay_seconds : ℚ)) ∧
      (onProcessingFailure cfg st now).next_allowed_run ≤
        now + cfg.retry.max_delay_seconds) ∧
    (cfg.retry.max_attempts < st.retry_count + 1 →
      (onProcessingFailure cfg st now).retry_count = 0 ∧
      (onProcessingFailure cfg st now).next_allowed_run =
        now + perAccountInterval cfg) := by
  constructor
  · intro h
    unfold onProcessingFailure
    rw [if_pos h]
    refine ⟨rfl, ?_, ?_⟩
    · show now + calculate_retry_delay cfg (st.retry_count + 1 - 1) = _
      rw [Nat.add_sub_cancel]
      rfl
    · exact Nat.add_le_add_left (calculate_retry_delay_le cfg _) now
  · intro h
    unfold onProcessingFailure
    rw [if_neg (Nat.not_le_of_lt h)]
    exact ⟨rfl, rfl⟩

/-- Witness for C6 at the default configuration: a first failure from the
fresh state takes the backoff branch, a fourth consecutive failure
exceeds `max_attempts = 3` and resets. -/
theorem c6_witness :
    (onProcessingFailure defaultConfig freshState 0).retry_count = 1 ∧
    (onProcessingFailure defaultConfig freshState 0).next_allowed_run ≤
      0 + defaultConfig.retry.max_delay_seconds ∧
    (onProcessingFailure defaultConfig exhaustedState 0).retry_count = 0 ∧
    (onProcessingFailure defaultConfig exhaustedState 0).next_allowed_run =
      0 + perAccountInterval defaultConfig :=
  ⟨((c6_failure_retry_backoff defaultConfig freshState 0).1
      (by decide)).1,
   ((c6_failure_retry_backoff defaultConfig freshState 0).1
      (by decide)).2.2,
   ((c6_failure_retry_backoff defaultConfig exhaustedState 0).2
      (by decide)).1,
   ((c6_failure_retry_backoff defaultConfig exhaustedState 0).2
      (by decide)).2⟩

/-- A successful `takeBytes cs n` returns a prefix of exactly `n` bytes. -/
theorem takeBytes_byteLen (cs : List Char) :
    ∀ n pre, takeBytes cs n = some pre → byteLen (String.mk pre) = n := by
  induction cs with
  | nil =>
    intro n pre h
    cases n with
    | zero =>
      unfold takeBytes at h
      obtain rfl := Option.some.inj h
      rfl
    | succ m => unfold takeBytes at h; cases h
  | cons c rest ih =>
    intro n pre h
    cases n with
    | zero =>
      unfold takeBytes at h
      obtain rfl := Option.some.inj h
      rfl
    | succ m =>
      unfold takeBytes at h
      by_cases hle : utf8Len c ≤ m + 1
      · rw [if_pos hle] at h
        cases hk : takeBytes rest (m + 1 - utf8Len c) with
        | none => rw [hk] at h; cases h
        | some pre2 =>
          rw [hk, Option.map_some'] at h
          obtain rfl := Option.some.inj h
          have hrec := ih (m + 1 - utf8Len c) pre2 hk
          have hcons : byteLen (String.mk (c :: pre2)) =
              utf8Len c + byteLen (String.mk pre2) := rfl
          rw [hcons, hrec]
          omega
      · rw [if_neg hle] at h; cases h

/-- C5 (amended to byte lengths): every feed item actually constructed by
`create_feed_item` has description equal to the body when the body is at
most 500 bytes and otherwise the 500-byte prefix of the body with a `...`
suffix; link `mailto:<from>?subject=<urlencode(subject)>`; `email_body`
the full body; and `body_size` the byte length of the body. -/
theorem c5_create_feed_item_fields (e : Email) (fid : String) (now : Int)
    (item : NewFeedItem) (h : create_feed_item e fid now = some item) :
    (byteLen e.body ≤ 500 → item.description = some e.body) ∧
    (500 < byteLen e.body →
      ∃ pre, takeBytes e.body.data 500 = some pre ∧
        item.description = some (String.mk pre ++ "...") ∧
        byteLen (String.mk pre) = 500) ∧
    item.link =
      some ("mailto:" ++ e.from_addr ++ "?subject=" ++
        urlencode e.subject) ∧
    item.email_body = some e.body ∧
    item.body_size = some (byteLen e.body) := by
  unfold create_feed_item at h
  cases htr : truncate_body e.body 500 with
  | none => rw [htr] at h; cases h
  | some desc =>
    rw [htr, Option.map_some'] at h
    obtain rfl := Option.some.inj h
    refine ⟨?_, ?_, rfl, rfl, rfl⟩
    · intro hb
      unfold truncate_body at htr
      rw [if_pos hb] at htr
      obtain rfl := Option.some.inj htr
      rfl
    · intro hb
      unfold truncate_body at htr
      rw [if_neg (by omega)] at htr
      cases hk : takeBytes e.body.data 500 with
      | none => rw [hk] at htr; cases htr
      | some pre =>
        rw [hk] at htr
        obtain rfl := Option.some.inj htr
        exact ⟨pre, rfl, rfl, takeBytes_byteLen e.body.data 500 pre hk⟩

set_option maxRecDepth 8192 in
/-- C5, counterexample to the claim as stated (with "characters" read as
characters): `c5Body` has 251 characters (at most 500) but 502 bytes, so
the code truncates it and the stored description is not the body. -/
theorem c5_counterexample :
    c5Email.body.length ≤ 500 ∧
    create_feed_item c5Email "feed-4" 0 ≠ none ∧
    (create_feed_item c5Email "feed-4" 0).map NewFeedItem.description ≠
      some (some c5Email.body) := by
  refine ⟨by decide, by decide, by decide⟩

/-- Witness for C5 at the short ASCII body of `c4Email`. -/
theorem c5_witness :
    byteLen c4Email.body ≤ 500 ∧
    c5WitnessItem.description = some c4Email.body :=
  ⟨by decide,
   (c5_create_feed_item_fields c4Email "feed-4" 7 c5WitnessItem
      (by decide)).1 (by decide)⟩

/-- The age-filter marks are (in order) a sublist of the non-null ids of
the loaded items. -/
theorem ageMarks_sublist (cutoff : Int) (items : List CleanupItem) :
    (ageMarks cutoff items).Sublist
      (items.filterMap CleanupItem.id) := by
  induction items with
  | nil => exact List.Sublist.refl _
  | cons it rest ih =>
    unfold ageMarks
    rw [List.filterMap_cons]
    by_cases hage : it.created_at < cutoff
    · rw [if_pos hage]
      cases hid : it.id with
      | none => exact ih
      | some i => exact ih.cons₂ i
    · rw [if_neg hage]
      cases hid : it.id with
      | none => exact ih
      | some i => exact ih.cons i

/-- The count-filter push loop preserves distinctness of the mark list. -/
theorem pushCountMarks_nodup (l : List CleanupItem) :
    ∀ marks : List String, marks.Nodup → (pushCountMarks marks l).Nodup := by
  induction l with
  | nil => intro marks hm; exact hm
  | cons it rest ih =>
    intro marks hm
    unfold pushCountMarks
    cases hid : it.id with
    | none => exact ih marks hm
    | some i =>
      show (if marks.contains i = true then pushCountMarks marks rest
        else pushCountMarks (marks ++ [i]) rest).Nodup
      by_cases hc : marks.contains i = true
      · rw [if_pos hc]; exact ih marks hm
      · rw [if_neg hc]
        refine ih (marks ++ [i]) ?_
        rw [List.nodup_append]
        refine ⟨hm, List.nodup_singleton i, ?_⟩
        intro x hx hxi
        rw [List.mem_singleton] at hxi
        subst hxi
        exact hc (List.elem_eq_true_of_mem hx)

/-- Every mark produced by the count-filter push loop is an incoming mark
or a non-null id of one of the pushed items. -/
theorem pushCountMarks_mem (l : List CleanupItem) :
    ∀ (marks : List String) (x : String), x ∈ pushCountMarks marks l →
      x ∈ marks ∨ x ∈ l.filterMap CleanupItem.id := by
  induction l with
  | nil => intro marks x hx; exact Or.inl hx
  | cons it rest ih =>
    intro marks x hx
    unfold pushCountMarks at hx
    rw [List.filterMap_cons]
    cases hid : it.id with
    | none =>
      rw [hid] at hx
      exact ih marks x hx
    | some i =>
      rw [hid] at hx
      have hx2 : x ∈ (if marks.contains i = true then
          pushCountMarks marks rest
          else pushCountMarks (marks ++ [i]) rest) := hx
      by_cases hc : marks.contains i = true
      · rw [if_pos hc] at hx2
        rcases ih marks x hx2 with hin | hin
        · exact Or.inl hin
        · exact Or.inr (List.mem_cons_of_mem i hin)
      · rw [if_neg hc] at hx2
        rcases ih (marks ++ [i]) x hx2 with hin | hin
        · rw [List.mem_append, List.mem_singleton] at hin
          rcases hin with hin | rfl
          · exact Or.inl hin
          · exact Or.inr (List.mem_cons_self _ _)
        · exact Or.inr (List.mem_cons_of_mem i hin)

/-- Stable insertion produces a permutation of consing. -/
theorem insertByCreatedAt_perm (x : CleanupItem) (l : List CleanupItem) :
    (insertByCreatedAt x l).Perm (x :: l) := by
  induction l with
  | nil => exact List.Perm.refl _
  | cons y ys ih =>
    unfold insertByCreatedAt
    by_cases hle : x.created_at ≤ y.created_at
    · rw [if_pos hle]
    · rw [if_neg hle]
      exact (ih.cons y).trans (List.Perm.swap x y ys)

/-- The compactor's stable sort is a permutation of its input. -/
theorem sortByCreatedAt_perm (l : List CleanupItem) :
    (sortByCreatedAt l).Perm l := by
  induction l with
  | nil => exact List.Perm.refl _
  | cons x xs ih =>
    unfold sortByCreatedAt
    exact (insertByCreatedAt_perm x (sortByCreatedAt xs)).trans (ih.cons x)

/-- Marks after the count-filter pass: distinct, provided the age marks
were and the loaded ids are distinct. -/
theorem countMarks_nodup (feed : Feed) (items : List CleanupItem)
    (marks : List String) (hm : marks.Nodup) :
    (countMarks feed items marks).Nodup := by
  unfold countMarks
  cases feed.max_items with
  | none => exact hm
  | some m =>
    show (if items.length > m then
      pushCountMarks marks ((sortByCreatedAt items).take
        (items.length - max m (feed.min_items.getD 0)))
      else marks).Nodup
    by_cases hlen : items.length > m
    · rw [if_pos hlen]
      exact pushCountMarks_nodup _ marks hm
    · rw [if_neg hlen]; exact hm

/-- Marks after the count-filter pass are incoming marks or ids of loaded
items. -/
theorem countMarks_mem (feed : Feed) (items : List CleanupItem)
    (marks : List String) (x : String)
    (hx : x ∈ countMarks feed items marks) :
    x ∈ marks ∨ x ∈ items.filterMap CleanupItem.id := by
  unfold countMarks at hx
  cases hmax : feed.max_items with
  | none => rw [hmax] at hx; exact Or.inl hx
  | some m =>
    rw [hmax] at hx
    have hx2 : x ∈ (if items.length > m then
        pushCountMarks marks ((sortByCreatedAt items).take
          (items.length - max m (feed.min_items.getD 0)))
        else marks) := hx
    by_cases hlen : items.length > m
    · rw [if_pos hlen] at hx2
      rcases pushCountMarks_mem _ marks x hx2 with hin | hin
      · exact Or.inl hin
      · refine Or.inr ?_
        have hsub : ((sortByCreatedAt items).take
            (items.length - max m (feed.min_items.getD 0))).Sublist
            (sortByCreatedAt items) := List.take_sublist _ _
        have hmem := (hsub.filterMap CleanupItem.id).subset hin
        exact ((sortByCreatedAt_perm items).filterMap
          CleanupItem.id).mem_iff.mp hmem
    · rw [if_neg hlen] at hx2; exact Or.inl hx2

/-- The floor pass only truncates: its output is a sublist of its input. -/
theorem floorMarks_sublist (feed : Feed) (len : Nat)
    (marks : List String) : (floorMarks feed len marks).Sublist marks := by
  unfold floorMarks
  cases feed.min_items with
  | none => exact List.Sublist.refl _
  | some k =>
    show (if len - marks.length < k then
      marks.take (marks.length - (k - (len - marks.length)))
      else marks).Sublist marks
    by_cases h : len - marks.length < k
    · rw [if_pos h]; exact List.take_sublist _ _
    · rw [if_neg h]

/-- The complete mark list of a cleanup run is distinct and drawn from
the loaded non-null ids, provided those ids are distinct. -/
theorem cleanupMarks_nodup_subset (feed : Feed) (now : Int)
    (items : List CleanupItem)
    (hnd : (items.filterMap CleanupItem.id).Nodup) :
    (cleanupMarks feed now items).Nodup ∧
      ∀ x ∈ cleanupMarks feed now items,
        x ∈ items.filterMap CleanupItem.id := by
  have base : ∀ marks0 : List String, marks0.Nodup →
      (∀ x ∈ marks0, x ∈ items.filterMap CleanupItem.id) →
      (floorMarks feed items.length
        (countMarks feed items marks0)).Nodup ∧
      ∀ x ∈ floorMarks feed items.length (countMarks feed items marks0),
        x ∈ items.filterMap CleanupItem.id := by
    intro marks0 h0 hsub0
    have hnodup2 := countMarks_nodup feed items marks0 h0
    have hfloor := floorMarks_sublist feed items.length
      (countMarks feed items marks0)
    refine ⟨hfloor.nodup hnodup2, ?_⟩
    intro x hx
    rcases countMarks_mem feed items marks0 x (hfloor.subset hx) with
      hin | hin
    · exact hsub0 x hin
    · exact hin
  unfold cleanupMarks
  cases feed.max_age_days with
  | none =>
    exact base [] List.nodup_nil (by intro x hx; cases hx)
  | some d =>
    refine base _ ((ageMarks_sublist _ items).nodup hnd) ?_
    intro x hx
    exact (ageMarks_sublist _ items).subset hx

/-- For any boolean predicate, keeping and dropping partition a list. -/
theorem filter_not_partition {a : Type} (p : a → Bool) (l : List a) :
    (l.filter (fun x => !p x)).length + (l.filter p).length = l.length := by
  induction l with
  | nil => rfl
  | cons x l ih =>
    rw [List.filter_cons, List.filter_cons]
    cases hpx : p x with
    | true => simp [hpx]; omega
    | false => simp [hpx]; omega

/-- A row removed by the delete loop has a non-null id. -/
theorem removedByMarks_isSome (marks : List String) (it : CleanupItem)
    (h : removedByMarks marks it = true) : it.id.isSome := by
  unfold removedByMarks at h
  cases hid : it.id with
  | none => rw [hid] at h; cases h
  | some i => rfl

/-- On lists all of whose items carry an id, `filterMap id` keeps the
length. -/
theorem filterMap_id_length (l : List CleanupItem)
    (h : ∀ it ∈ l, it.id.isSome) :
    (l.filterMap CleanupItem.id).length = l.length := by
  induction l with
  | nil => rfl
  | cons it rest ih =>
    rw [List.filterMap_cons]
    have hit := h it (List.mem_cons_self it rest)
    cases hid : it.id with
    | none => rw [hid] at hit; cases hit
    | some i =>
      show (i :: rest.filterMap CleanupItem.id).length = rest.length + 1
      rw [List.length_cons,
        ih (fun x hx => h x (List.mem_cons_of_mem it hx))]

/-- The dropped items are at most as many as the marks, when the loaded
ids are distinct. -/
theorem dropped_le_marks (marks : List String)
    (items : List CleanupItem)
    (hnd : (items.filterMap CleanupItem.id).Nodup) :
    (items.filter (removedByMarks marks)).length ≤ marks.length := by
  set dropped := items.filter (removedByMarks marks) with hdropped
  have hsub : (dropped.filterMap CleanupItem.id).Sublist
      (items.filterMap CleanupItem.id) :=
    (List.filter_sublist items).filterMap CleanupItem.id
  have hnodup : (dropped.filterMap CleanupItem.id).Nodup := hsub.nodup hnd
  have hmem : ∀ x ∈ dropped.filterMap CleanupItem.id, x ∈ marks := by
    intro x hx
    rw [List.mem_filterMap] at hx
    obtain ⟨it, hit, hid⟩ := hx
    rw [hdropped, List.mem_filter] at hit
    have hrem := hit.2
    unfold removedByMarks at hrem
    rw [hid] at hrem
    exact List.mem_of_elem_eq_true hrem
  have hall : ∀ it ∈ dropped, it.id.isSome := by
    intro it hit
    rw [hdropped, List.mem_filter] at hit
    exact removedByMarks_isSome marks it hit.2
  calc dropped.length = (dropped.filterMap CleanupItem.id).length :=
        (filterMap_id_length dropped hall).symm
    _ ≤ marks.length :=
        (List.subperm_of_subset hnodup hmem).length_le

/-- The floor pass leaves at least `min k len` survivors on paper, as
long as there are no more marks than items. -/
theorem floorMarks_min_le (feed : Feed) (len : Nat)
    (marks : List String) (k : Nat) (hk : feed.min_items = some k)
    (hb : marks.length ≤ len) :
    min k len ≤ len - (floorMarks feed len marks).length := by
  unfold floorMarks
  rw [hk]
  show min k len ≤ len - (if len - marks.length < k then
    marks.take (marks.length - (k - (len - marks.length)))
    else marks).length
  by_cases h : len - marks.length < k
  · rw [if_pos h, List.length_take]; omega
  · rw [if_neg h]; omega

/-- The mark list of a run is the floor pass applied to the count pass
applied to a distinct seed drawn from the loaded ids. -/
theorem cleanupMarks_decomp (feed : Feed) (now : Int)
    (items : List CleanupItem) :
    ∃ marks0 : List String,
      cleanupMarks feed now items =
        floorMarks feed items.length (countMarks feed items marks0) ∧
      ((items.filterMap CleanupItem.id).Nodup → marks0.Nodup) ∧
      (∀ x ∈ marks0, x ∈ items.filterMap CleanupItem.id) := by
  unfold cleanupMarks
  cases hage : feed.max_age_days with
  | some d =>
    exact ⟨ageMarks (now - (d : Int) * 86400) items, rfl,
      fun hnd => (ageMarks_sublist _ items).nodup hnd,
      fun x hx => (ageMarks_sublist _ items).subset hx⟩
  | none =>
    exact ⟨[], rfl, fun _ => List.nodup_nil,
      fun x hx => absurd hx (List.not_mem_nil x)⟩

/-- C3: for every feed with `min_items = k` and every loaded item list
with distinct ids, one `cleanup_feed` run leaves at least
`min(k, number of items before the run)` items. -/
theorem c3_cleanup_respects_min_items (feed : Feed) (now : Int)
    (items : List CleanupItem) (k : Nat)
    (hmin : feed.min_items = some k)
    (hnd : (items.filterMap CleanupItem.id).Nodup) :
    min k items.length ≤ (cleanup_feed feed now items).1.length := by
  unfold cleanup_feed
  by_cases hempty : items.isEmpty
  · rw [if_pos hempty]
    rw [List.isEmpty_iff] at hempty
    subst hempty
    simp
  · rw [if_neg hempty]
    show min k items.length ≤ (items.filter (fun it =>
      !removedByMarks (cleanupMarks feed now items) it)).length
    obtain ⟨marks0, hdecomp, hnd0, hsub0⟩ :=
      cleanupMarks_decomp feed now items
    have h2nd := countMarks_nodup feed items marks0 (hnd0 hnd)
    have h2s : ∀ x ∈ countMarks feed items marks0,
        x ∈ items.filterMap CleanupItem.id := by
      intro x hx
      rcases countMarks_mem feed items marks0 x hx with hin | hin
      · exact hsub0 x hin
      · exact hin
    have hb : (countMarks feed items marks0).length ≤ items.length :=
      le_trans (List.subperm_of_subset h2nd h2s).length_le
        (List.length_filterMap_le _ _)
    have hfloor := floorMarks_min_le feed items.length
      (countMarks feed items marks0) k hmin hb
    rw [← hdecomp] at hfloor
    have hdrop := dropped_le_marks (cleanupMarks feed now items) items hnd
    have hpart := filter_not_partition
      (removedByMarks (cleanupMarks feed now items)) items
    omega

/-- Witness for C3 at the concrete S4 scenario (`min_items = 1`, five
distinct items). -/
theorem c3_witness :
    c2Feed.min_items = some 1 ∧
    min 1 c2Items.length ≤ (cleanup_feed c2Feed c2Now c2Items).1.length :=
  ⟨by decide,
   c3_cleanup_respects_min_items c2Feed c2Now c2Items 1 (by decide)
     (by decide)⟩

/-- Helper form of the duplicate verdict: Message-ID tier or composite
tier (shared by the processor round-trip proofs). -/
theorem email_exists_two_tier (store : List FeedItem) (fid : String)
    (e : Email) :
    email_exists_in_feed store fid e =
      ((e.message_id ≠ "" && countByMessageId store fid e > 0) ||
        countBySubjectFromDate store fid e > 0) := by
  unfold email_exists_in_feed
  by_cases h :
      (decide (e.message_id ≠ "") &&
        decide (countByMessageId store fid e > 0)) = true
  · simp [h]
  · simp only [Bool.not_eq_true] at h
    simp [h]

/-- A duplicate verdict is stable under growing the table. -/
theorem email_exists_mono (store ext : List FeedItem) (fid : String)
    (e : Email)
    (h : email_exists_in_feed store fid e = true) :
    email_exists_in_feed (store ++ ext) fid e = true := by
  rw [email_exists_two_tier] at h ⊢
  have h1 : countByMessageId (store ++ ext) fid e =
      countByMessageId store fid e + countByMessageId ext fid e :=
    List.countP_append _ _ _
  have h2 : countBySubjectFromDate (store ++ ext) fid e =
      countBySubjectFromDate store fid e +
        countBySubjectFromDate ext fid e :=
    List.countP_append _ _ _
  rw [Bool.or_eq_true] at h ⊢
  rcases h with ha | hb
  · left
    rw [Bool.and_eq_true] at ha ⊢
    refine ⟨ha.1, ?_⟩
    have hgt := of_decide_eq_true ha.2
    exact decide_eq_true (by omega)
  · right
    have hgt := of_decide_eq_true hb
    exact decide_eq_true (by omega)

/-- The item built by `create_feed_item` lands in the requested feed. -/
theorem create_feed_item_feed_id (e : Email) (fid : String) (now : Int)
    (nitem : NewFeedItem) (h : create_feed_item e fid now = some nitem) :
    nitem.feed_id = fid := by
  unfold create_feed_item at h
  cases ht : truncate_body e.body 500 with
  | none => rw [ht] at h; exact Option.noConfusion h
  | some desc =>
    rw [ht, Option.map_some'] at h
    rw [← Option.some.inj h]
    rfl

/-- The stored row of the item built by `create_feed_item` carries the
email's dedup key fields. -/
theorem create_feed_item_dedup_fields (e : Email) (fid : String)
    (now : Int) (nitem : NewFeedItem)
    (h : create_feed_item e fid now = some nitem) :
    nitem.toStored.feed_id = fid ∧
    nitem.toStored.email_message_id = some e.message_id ∧
    nitem.toStored.title = e.subject ∧
    nitem.toStored.email_from = some e.from_addr ∧
    nitem.toStored.pub_date = dateToRfc3339 e.date := by
  unfold create_feed_item at h
  cases ht : truncate_body e.body 500 with
  | none => rw [ht] at h; exact Option.noConfusion h
  | some desc =>
    rw [ht, Option.map_some'] at h
    rw [← Option.some.inj h]
    exact ⟨rfl, rfl, rfl, rfl, rfl⟩

/-- Once the item built from a message is in the table, the message is a
duplicate. -/
theorem email_exists_after_insert (store ext : List FeedItem)
    (fid : String) (e : Email) (nitem : NewFeedItem) (now : Int)
    (hc : create_feed_item e fid now = some nitem) :
    email_exists_in_feed (store ++ nitem.toStored :: ext) fid e = true := by
  obtain ⟨hf, hm, ht, hfr, hp⟩ :=
    create_feed_item_dedup_fields e fid now nitem hc
  rw [email_exists_two_tier, Bool.or_eq_true]
  by_cases hne : e.message_id = ""
  · right
    refine decide_eq_true ?_
    refine List.countP_pos_iff.mpr ⟨nitem.toStored, ?_, ?_⟩
    · exact List.mem_append_right store (List.mem_cons_self _ _)
    · simp [hf, ht, hfr, hp]
  · left
    rw [Bool.and_eq_true]
    refine ⟨decide_eq_true hne, decide_eq_true ?_⟩
    refine List.countP_pos_iff.mpr ⟨nitem.toStored, ?_, ?_⟩
    · exact List.mem_append_right store (List.mem_cons_self _ _)
    · simp [hf, hm]

/-- A processing run only appends, and appends only items of the
processed feed. -/
theorem processEmails_grows (rule : EmailRule) (fid : String) (now : Int) :
    ∀ (emails : List Email) (store store1 : List FeedItem) (n : Nat),
      processEmails rule fid now emails store = some (store1, n) →
      ∃ ext : List FeedItem, store1 = store ++ ext ∧
        ∀ it ∈ ext, it.feed_id = fid := by
  intro emails
  induction emails with
  | nil =>
    intro store store1 n h
    unfold processEmails at h
    have h2 := Option.some.inj h
    refine ⟨[], ?_, by intro it hit; cases hit⟩
    rw [List.append_nil]
    exact (congrArg Prod.fst h2).symm
  | cons e rest ih =>
    intro store store1 n h
    unfold processEmails at h
    by_cases hmr : matches_rule e rule = true
    · rw [if_pos hmr] at h
      by_cases hd : email_exists_in_feed store fid e = true
      · rw [if_pos hd] at h
        exact ih store store1 n h
      · rw [if_neg hd] at h
        cases hc : create_feed_item e fid now with
        | none => rw [hc] at h; exact Option.noConfusion h
        | some nitem =>
          rw [hc] at h
          have h3 : Option.map (fun r => (r.1, r.2 + 1))
              (processEmails rule fid now rest
                (store ++ [nitem.toStored])) = some (store1, n) := h
          cases hrec : processEmails rule fid now rest
              (store ++ [nitem.toStored]) with
          | none => rw [hrec] at h3; exact Option.noConfusion h3
          | some r =>
            rw [hrec, Option.map_some'] at h3
            have h2 := Option.some.inj h3
            have hs : r.1 = store1 := congrArg Prod.fst h2
            obtain ⟨ext, hext, hall⟩ :=
              ih (store ++ [nitem.toStored]) r.1 r.2 (by rw [hrec])
            refine ⟨nitem.toStored :: ext, ?_, ?_⟩
            · rw [← hs, hext, List.append_assoc]
              rfl
            · intro it hit
              rcases List.mem_cons.mp hit with rfl | hin
              · exact create_feed_item_feed_id e fid now nitem hc
              · exact hall it hin
    · rw [if_neg hmr] at h
      exact ih store store1 n h

/-- Replaying the message loop on its own output table creates nothing:
every email that got in is now a duplicate, every other email is skipped
for the same reason as before. -/
theorem processEmails_idempotent (rule : EmailRule) (fid : String)
    (now : Int) :
    ∀ (emails : List Email) (store store1 : List FeedItem) (n : Nat),
      processEmails rule fid now emails store = some (store1, n) →
      processEmails rule fid now emails store1 = some (store1, 0) := by
  intro emails
  induction emails with
  | nil =>
    intro store store1 n h
    unfold processEmails at h
    have h2 := Option.some.inj h
    have hs : store = store1 := congrArg Prod.fst h2
    subst hs
    rfl
  | cons e rest ih =>
    intro store store1 n h
    unfold processEmails at h ⊢
    by_cases hmr : matches_rule e rule = true
    · rw [if_pos hmr] at h ⊢
      by_cases hd : email_exists_in_feed store fid e = true
      · rw [if_pos hd] at h
        obtain ⟨ext, hext, hall⟩ :=
          processEmails_grows rule fid now rest store store1 n h
        have hd1 : email_exists_in_feed store1 fid e = true := by
          rw [hext]
          exact email_exists_mono store ext fid e hd
        rw [if_pos hd1]
        exact ih store store1 n h
      · rw [if_neg hd] at h
        cases hc : create_feed_item e fid now with
        | none => rw [hc] at h; exact Option.noConfusion h
        | some nitem =>
          rw [hc] at h
          have h3 : Option.map (fun r => (r.1, r.2 + 1))
              (processEmails rule fid now rest
                (store ++ [nitem.toStored])) = some (store1, n) := h
          cases hrec : processEmails rule fid now rest
              (store ++ [nitem.toStored]) with
          | none => rw [hrec] at h3; exact Option.noConfusion h3
          | some r =>
            rw [hrec, Option.map_some'] at h3
            have h2 := Option.some.inj h3
            have hs : r.1 = store1 := congrArg Prod.fst h2
            obtain ⟨ext, hext, hall⟩ :=
              processEmails_grows rule fid now rest
                (store ++ [nitem.toStored]) r.1 r.2 (by rw [hrec])
            have hd1 : email_exists_in_feed store1 fid e = true := by
              rw [← hs, hext, List.append_assoc]
              exact email_exists_after_insert store ext fid e nitem now hc
            rw [if_pos hd1]
            have hrec2 := ih (store ++ [nitem.toStored]) r.1 r.2
              (by rw [hrec])
            rw [hs] at hrec2
            exact hrec2
    · rw [if_neg hmr] at h ⊢
      exact ih store store1 n h

/-- C4: replaying `process_rule` over the same folder contents on the
table produced by a previous successful run creates zero new feed items
and leaves the table unchanged — every email already materialized is
caught by the duplicate test (Message-ID tier when the id is non-empty,
the subject/from/date tier otherwise). -/
theorem c4_process_rule_idempotent (rule : EmailRule) (feeds : List Feed)
    (now : Int) (emails : List Email) (store store1 : List FeedItem)
    (n : Nat)
    (h : process_rule rule feeds now emails store = some (store1, n)) :
    process_rule rule feeds now emails store1 = some (store1, 0) := by
  cases feeds with
  | nil =>
    unfold process_rule at h
    have h2 := Option.some.inj h
    have hs : store = store1 := congrArg Prod.fst h2
    subst hs
    rfl
  | cons f0 fs =>
    have h2 : (match f0.id with
        | none => none
        | some fid => processEmails rule fid now emails store) =
        some (store1, n) := h
    show (match f0.id with
      | none => none
      | some fid => processEmails rule fid now emails store1) =
      some (store1, 0)
    cases hid : f0.id with
    | none =>
      rw [hid] at h2
      exact Option.noConfusion h2
    | some fid =>
      rw [hid] at h2
      have h4 : processEmails rule fid now emails store =
          some (store1, n) := h2
      show processEmails rule fid now emails store1 = some (store1, 0)
      exact processEmails_idempotent rule fid now emails store store1 n h4

/-- Witness for C4: one message processed into the empty table, then the
same folder replayed on the resulting table. -/
theorem c4_witness :
    process_rule c4Rule [c4Feed] 7 [c4Email] [c5WitnessItem.toStored] =
      some ([c5WitnessItem.toStored], 0) :=
  c4_process_rule_idempotent c4Rule [c4Feed] 7 [c4Email] []
    [c5WitnessItem.toStored] 1 (by decide)

/-- C10: a `process_rule` run writes only into the first feed returned
for the rule; for every other feed id, the rows of that feed are exactly
the rows it had before the run. -/
theorem c10_process_rule_frame (rule : EmailRule) (feeds : List Feed)
    (now : Int) (emails : List Email) (store store1 : List FeedItem)
    (n : Nat) (gid : String)
    (h : process_rule rule feeds now emails store = some (store1, n))
    (hg : ∀ f0, feeds.head? = some f0 → f0.id ≠ some gid) :
    store1.filter (fun it => it.feed_id == gid) =
      store.filter (fun it => it.feed_id == gid) := by
  cases feeds with
  | nil =>
    unfold process_rule at h
    have h2 := Option.some.inj h
    have hs : store = store1 := congrArg Prod.fst h2
    subst hs
    rfl
  | cons f0 fs =>
    have h2m : (match f0.id with
        | none => none
        | some fid => processEmails rule fid now emails store) =
        some (store1, n) := h
    cases hid : f0.id with
    | none =>
      rw [hid] at h2m
      exact Option.noConfusion h2m
    | some fid =>
      rw [hid] at h2m
      have h2 : processEmails rule fid now emails store =
          some (store1, n) := h2m
      have hfid : fid ≠ gid := by
        intro hcontra
        exact (hg f0 rfl) (by rw [hid, hcontra])
      obtain ⟨ext, hext, hall⟩ :=
        processEmails_grows rule fid now emails store store1 n h2
      rw [hext, List.filter_append]
      have hnil : ext.filter (fun it => it.feed_id == gid) = [] := by
        rw [List.filter_eq_nil_iff]
        intro it hit
        rw [hall it hit]
        simp [hfid]
      rw [hnil, List.append_nil]

/-- Witness for C10: the rule is bound to both "feed-4" and "feed-10";
a run inserting one item touches only "feed-4", leaving the row set of
"feed-10" untouched. -/
theorem c10_witness :
    c10Store1.filter (fun it => it.feed_id == "feed-10") =
      ([c10OtherItem] : List FeedItem).filter
        (fun it => it.feed_id == "feed-10") :=
  c10_process_rule_frame c4Rule [c4Feed, c10OtherFeed] 7 [c4Email]
    [c10OtherItem] c10Store1 1 "feed-10" (by decide)
    (by
      intro f0 hf0
      rw [← Option.some.inj hf0]
      decide)

end Mail2Feed
